import Mathlib

/-!
Verification of the 3Di structural-alphabet core of the foldseek repository.

The development shallowly embeds, over the real numbers, the geometry
primitives and the feature extractor quoted verbatim in the code review
report (reports/3di.md, quoting lib/3di/structureto3di.cpp and the two
headers), the constants of the Alphabet3Di and Alphabet3diSeqDist
namespaces, the createdb driver loop of
src/strucclustutils/structcreatedb.cpp, and - where the reviewed C++
bodies are not part of the repository snapshot - definitions modelled
from the specification document (marked as such in their doc comments).

Machine doubles are modelled as real numbers; the one place where IEEE
semantics and the real-number model part ways (division by a zero
length in norm) is called out at the corresponding theorem.
-/

namespace Foldseek

/-- Vec3 of structureto3di.h: an ordered triple of double precision
components, modelled with real components. -/
structure Vec3 where
  x : ℝ
  y : ℝ
  z : ℝ

/-- Modelled from the spec: componentwise vector addition (section 4.1 of
the spec; the body of add is not quoted in the report). -/
noncomputable def add (a b : Vec3) : Vec3 :=
  ⟨a.x + b.x, a.y + b.y, a.z + b.z⟩

/-- Modelled from the spec: componentwise vector subtraction (section 4.1;
the body of sub is not quoted in the report). -/
noncomputable def sub (a b : Vec3) : Vec3 :=
  ⟨a.x - b.x, a.y - b.y, a.z - b.z⟩

/-- Modelled from the spec: scaling of a vector by a scalar (section 4.1;
the body of scale is not quoted in the report). -/
noncomputable def scale (a : Vec3) (s : ℝ) : Vec3 :=
  ⟨a.x * s, a.y * s, a.z * s⟩

/-- Modelled from the spec: the dot product (section 4.1; the body of dot
is not quoted in the report). -/
noncomputable def dot (a b : Vec3) : ℝ :=
  a.x * b.x + a.y * b.y + a.z * b.z

/-- Modelled from the spec: the cross product (section 4.1; the body of
cross is not quoted in the report). -/
noncomputable def cross (a b : Vec3) : Vec3 :=
  ⟨a.y * b.z - a.z * b.y, a.z * b.x - a.x * b.z, a.x * b.y - a.y * b.x⟩

/-- StructureTo3DiBase.norm, quoted at line 23 of structureto3di.cpp in
the report: divide each component by the Euclidean length.  The C++ code
divides unconditionally; on the zero vector the length is 0 and each
component becomes 0/0 (IEEE: NaN; in this real-number model, division by
zero yields 0). -/
noncomputable def norm (a : Vec3) : Vec3 :=
  let len := Real.sqrt (a.x * a.x + a.y * a.y + a.z * a.z)
  ⟨a.x / len, a.y / len, a.z / len⟩

/-- StructureTo3DiBase.calcDistanceBetween, quoted at line 101 of
structureto3di.cpp in the report: the Euclidean distance. -/
noncomputable def calcDistanceBetween (a b : Vec3) : ℝ :=
  let dx := a.x - b.x
  let dy := a.y - b.y
  let dz := a.z - b.z
  Real.sqrt (dx * dx + dy * dy + dz * dz)

/-- Modelled from the spec: norm2, the Euclidean length of section 4.1
(sqrt of the sum of squared components). -/
noncomputable def norm2 (a : Vec3) : ℝ :=
  Real.sqrt (a.x * a.x + a.y * a.y + a.z * a.z)

/-- Axis-angle rotation as quoted at line 89 of structureto3di.cpp in the
report: v goes to
add(add(scale(v, cos a), scale(cross(k, v), sin a)),
scale(scale(k, dot(k, v)), 1 - cos a)). -/
noncomputable def rotate (v k : Vec3) (alpha : ℝ) : Vec3 :=
  add (add (scale v (Real.cos alpha)) (scale (cross k v) (Real.sin alpha)))
    (scale (scale k (dot k v)) (1 - Real.cos alpha))

/-- The Rodrigues rotation formula exactly as the spec states it in
section 4.1, spelled out componentwise: v cos t + (axis x v) sin t +
axis (axis . v)(1 - cos t). -/
noncomputable def rodrigues (v k : Vec3) (t : ℝ) : Vec3 :=
  ⟨v.x * Real.cos t + (k.y * v.z - k.z * v.y) * Real.sin t
      + k.x * (k.x * v.x + k.y * v.y + k.z * v.z) * (1 - Real.cos t),
    v.y * Real.cos t + (k.z * v.x - k.x * v.z) * Real.sin t
      + k.y * (k.x * v.x + k.y * v.y + k.z * v.z) * (1 - Real.cos t),
    v.z * Real.cos t + (k.x * v.y - k.y * v.x) * Real.sin t
      + k.z * (k.x * v.x + k.y * v.y + k.z * v.z) * (1 - Real.cos t)⟩

namespace Alphabet3Di

/-- CENTROID_CNT of the Alphabet3Di namespace, structureto3di.h line 9
(quoted in the report): K = 20 states. -/
def CENTROID_CNT : ℕ := 20

/-- INVALID_STATE of the Alphabet3Di namespace, structureto3di.h line 10
(quoted in the report): the constant is 2, with the source comment
"assign invalid residues to coil state". -/
def INVALID_STATE : ℕ := 2

/-- DISTANCE_ALPHA_BETA of the Alphabet3Di namespace (quoted in the
report): 1.5336. -/
noncomputable def DISTANCE_ALPHA_BETA : ℝ := 1.5336

/-- PI constant of the Alphabet3Di namespace (quoted in the report). -/
noncomputable def PI : ℝ := 3.14159265359

/-- FEATURE_CNT of the Alphabet3Di namespace (quoted in the report). -/
def FEATURE_CNT : ℕ := 10

/-- EMBEDDING_DIM of the Alphabet3Di namespace (quoted in the report). -/
def EMBEDDING_DIM : ℕ := 2

/-- Parameters of the virtual-center construction: two angles in degrees
and a bond length. -/
structure VCParams where
  alpha : ℝ
  beta : ℝ
  d : ℝ

/-- VIRTUAL_CENTER of the Alphabet3Di namespace (quoted in the report):
the struct constant with alpha = 270, beta = 0, d = 2. -/
noncomputable def VIRTUAL_CENTER : VCParams := ⟨270, 0, 2⟩

end Alphabet3Di

namespace Alphabet3diSeqDist

/-- CENTROID_CNT of the Alphabet3diSeqDist namespace,
structureto3diseqdist.h (quoted in the report). -/
def CENTROID_CNT : ℕ := 20

/-- INVALID_STATE of the Alphabet3diSeqDist namespace (quoted in the
report): defined as CENTROID_CNT itself. -/
def INVALID_STATE : ℕ := CENTROID_CNT

/-- The one-dimensional centroid table of the Alphabet3diSeqDist
namespace (quoted in the report). -/
def centroids : List ℤ :=
  [-284, -147, -83, -52, -33, -21, -13, -7, -4, -3, -1, 1, 3, 7, 13, 24,
    40, 68, 123, 250]

end Alphabet3diSeqDist

/-- The C copysign on reals: the magnitude of x carrying the sign of y,
where the sign of +0.0 counts as positive. -/
noncomputable def copysign (x y : ℝ) : ℝ :=
  if y < 0 then -|x| else |x|

/-- The C fmin on reals (both arguments assumed ordinary numbers). -/
noncomputable def fmin (x y : ℝ) : ℝ := min x y

/-- StructureTo3Di.calcFeatures, quoted at line 189 of structureto3di.cpp
in the report, translated literally.  The C array of C alpha positions is
modelled as a total function on the integers (pointer indexing), so the
expressions ca[i - 1] and ca[j + 1] need no side conditions.  The ten
feature slots are returned as a list of length ten, in source order. -/
noncomputable def calcFeatures (ca : ℤ → Vec3) (i j : ℤ) : List ℝ :=
  let u1 := norm (sub (ca i) (ca (i - 1)))
  let u2 := norm (sub (ca (i + 1)) (ca i))
  let u3 := norm (sub (ca j) (ca (j - 1)))
  let u4 := norm (sub (ca (j + 1)) (ca j))
  let u5 := norm (sub (ca j) (ca i))
  [dot u1 u2,
    dot u3 u4,
    dot u1 u5,
    dot u3 u5,
    dot u1 u4,
    dot u2 u3,
    dot u1 u3,
    calcDistanceBetween (ca i) (ca j),
    copysign (fmin |((j - i : ℤ) : ℝ)| 4) ((j - i : ℤ) : ℝ),
    copysign (Real.log (|((j - i : ℤ) : ℝ)| + 1)) ((j - i : ℤ) : ℝ)]

/-- The feature list the spec promises in section 4.4, written in the
vocabulary of the spec: unit tangent and separation vectors, the
Euclidean distance, and the two signed sequence-separation terms
sign(j - i) * min(|j - i|, 4) and sign(j - i) * log(|j - i| + 1). -/
noncomputable def specFeatures (ca : ℤ → Vec3) (i j : ℤ) : List ℝ :=
  let u1 := norm (sub (ca i) (ca (i - 1)))
  let u2 := norm (sub (ca (i + 1)) (ca i))
  let u3 := norm (sub (ca j) (ca (j - 1)))
  let u4 := norm (sub (ca (j + 1)) (ca j))
  let u5 := norm (sub (ca j) (ca i))
  [dot u1 u2,
    dot u3 u4,
    dot u1 u5,
    dot u3 u5,
    dot u1 u4,
    dot u2 u3,
    dot u1 u3,
    calcDistanceBetween (ca i) (ca j),
    ((j - i : ℤ).sign : ℝ) * min |((j - i : ℤ) : ℝ)| 4,
    ((j - i : ℤ).sign : ℝ) * Real.log (|((j - i : ℤ) : ℝ)| + 1)]

/-- Modelled from the spec: the scan that keeps, of a list of candidate
indices, the first one attaining the minimal key (section 4.3 breaks
ties by the key and then keeps the earliest candidate; a strict
comparison against the current best realises exactly that). -/
def pickFrom {α : Type} [LinearOrder α] (key : ℕ → α) (m : ℕ) :
    List ℕ → ℕ
  | [] => m
  | k :: ks => pickFrom key (if key k < key m then k else m) ks

/-- Modelled from the spec: the minimiser of a key over a candidate
list, none when the list is empty (the reference reports -1, meaning no
partner, when nothing is found; the report notes this at its line 136
remark). -/
def pick {α : Type} [LinearOrder α] (key : ℕ → α) :
    List ℕ → Option ℕ
  | [] => none
  | j :: js => some (pickFrom key j js)

/-- Modelled from the spec: the candidate partners of residue i in a
chain of length L, per section 4.3: indices j distinct from i with
0 < j < L - 1, so that j - 1 and j + 1 exist, scanned in increasing
order. -/
def partnerCandidates (L i : ℕ) : List ℕ :=
  (List.range L).filter (fun j => decide (0 < j ∧ j + 1 < L ∧ j ≠ i))

/-- Modelled from the spec: the composite partner cost of section 4.3,
cost(i, j) = dist(EffectiveCb i, EffectiveCb j) + w * f(|j - i|), with
the weight w and the monotone sequence penalty f taken from the model
data. -/
noncomputable def partnerCost (w : ℝ) (f : ℕ → ℝ) (cb : ℕ → Vec3)
    (i j : ℕ) : ℝ :=
  calcDistanceBetween (cb i) (cb j) + w * f (Nat.dist j i)

/-- Modelled from the spec: the partner selector of section 4.3.  The
candidate minimising the composite cost is returned; ties are broken by
the smaller separation |j - i| (the lexicographic second component) and
then by the smaller j (the scan keeps the earliest of an increasing
candidate list); none is returned when no candidate exists. -/
noncomputable def findResiduePartner (w : ℝ) (f : ℕ → ℝ)
    (cb : ℕ → Vec3) (L i : ℕ) : Option ℕ :=
  pick (fun j => toLex (partnerCost w f cb i j, Nat.dist j i))
    (partnerCandidates L i)

/-- Modelled from the spec: the unit direction of the virtual-center
offset, section 4.2: from the two unit vectors u1 = unit(p) and
u2 = unit(q), build v3 = -u1/3 + (-u1/2 - u2 sqrt(3)/2) sqrt(8)/3 (the
shape quoted at line 61 of the report) and the analogous v4 with the
roles of u1 and u2 exchanged, rotate v3 about the normalised v4 by the
first angle and about u2 by the second, and normalise. -/
noncomputable def vcDirectionOf (p q : Vec3) (alphaRad betaRad : ℝ) :
    Vec3 :=
  let u1 := norm p
  let u2 := norm q
  let v3 := add (scale u1 (-(1 / 3)))
    (scale (sub (scale u1 (-(1 / 2))) (scale u2 (Real.sqrt 3 / 2)))
      (Real.sqrt 8 / 3))
  let v4 := add (scale u2 (-(1 / 3)))
    (scale (sub (scale u2 (-(1 / 2))) (scale u1 (Real.sqrt 3 / 2)))
      (Real.sqrt 8 / 3))
  norm (rotate (rotate v3 (norm v4) alphaRad) u2 betaRad)

/-- Modelled from the spec: the virtual-center synthesiser of section
4.2 with angles already in radians: the virtual atom sits at Ca plus the
offset direction, built from Ca - N and C - N, scaled to length d. -/
noncomputable def calcVirtualCenterRad (ca n c : Vec3)
    (alphaRad betaRad d : ℝ) : Vec3 :=
  add ca (scale (vcDirectionOf (sub ca n) (sub c n) alphaRad betaRad) d)

/-- Modelled from the spec: the virtual-center synthesiser taking its
two angles in degrees and converting them to radians internally (the
conversion is documented at the line 73 remark of the report). -/
noncomputable def calcVirtualCenter (ca n c : Vec3)
    (alpha beta d : ℝ) : Vec3 :=
  calcVirtualCenterRad ca n c (alpha * (Alphabet3Di.PI / 180))
    (beta * (Alphabet3Di.PI / 180)) d

/-- One chain of residue coordinates as the core consumes it: a length
and, per residue index, the Ca, N and C backbone positions and an
optional Cb (none models a Cb with a non-finite component, that is a
missing one). -/
structure Chain where
  len : ℕ
  ca : ℕ → Vec3
  n : ℕ → Vec3
  c : ℕ → Vec3
  cb : ℕ → Option Vec3

/-- Modelled from the spec: the EffectiveCb array of section 3, the
given Cb when present and the synthesised virtual center, with the
process-wide VIRTUAL_CENTER parameters of the Alphabet3Di namespace,
when missing. -/
noncomputable def effectiveCb (ch : Chain) (i : ℕ) : Vec3 :=
  match ch.cb i with
  | some v => v
  | none =>
      calcVirtualCenter (ch.ca i) (ch.n i) (ch.c i)
        Alphabet3Di.VIRTUAL_CENTER.alpha Alphabet3Di.VIRTUAL_CENTER.beta
        Alphabet3Di.VIRTUAL_CENTER.d

/-- Modelled from the spec: one fully-connected layer of section 4.5: a
weight matrix, a bias vector, an input width and an activation. -/
structure Layer where
  cols : ℕ
  weight : ℕ → ℕ → ℝ
  bias : ℕ → ℝ
  act : ℝ → ℝ

/-- Modelled from the spec: the forward step of one layer, y =
activation(W x + b), written per output row. -/
noncomputable def Layer.forward (l : Layer) (xv : ℕ → ℝ) : ℕ → ℝ :=
  fun r =>
    l.act
      (((List.range l.cols).map (fun cc => l.weight r cc * xv cc)).sum
        + l.bias r)

/-- Modelled from the spec: the embedding network of section 4.5, a
stack of fully-connected layers applied in order. -/
noncomputable def netForward (layers : List Layer) (xv : ℕ → ℝ) :
    ℕ → ℝ :=
  layers.foldl (fun v l => l.forward v) xv

/-- Modelled from the spec: the squared Euclidean distance between an
embedding and a centroid over the EMBEDDING_DIM components (section
4.6). -/
noncomputable def sqDist2 (e cvec : ℕ → ℝ) : ℝ :=
  ((List.range Alphabet3Di.EMBEDDING_DIM).map
    (fun k => (e k - cvec k) * (e k - cvec k))).sum

/-- Modelled from the spec: the centroid quantiser of section 4.6, the
index of the nearest of the CENTROID_CNT centroids under squared
Euclidean distance, ties broken by the smallest index (the scan keeps
the earliest minimiser). -/
noncomputable def nearestCentroid (cents : ℕ → ℕ → ℝ) (e : ℕ → ℝ) :
    ℕ :=
  (pick (fun k => sqDist2 e (cents k))
    (List.range Alphabet3Di.CENTROID_CNT)).getD 0

/-- The trained model data the pipeline consumes: network layers,
centroid table, and the sequence-penalty weight and function of the
partner cost. -/
structure ModelData where
  layers : List Layer
  centroids : ℕ → ℕ → ℝ
  seqWeight : ℝ
  seqPenalty : ℕ → ℝ

/-- The composite partner cost of residue pair (i, j) of a chain, with
the weight and penalty of the given model data and the EffectiveCb
array of the chain. -/
noncomputable def chainCost (md : ModelData) (ch : Chain) (i j : ℕ) :
    ℝ :=
  partnerCost md.seqWeight md.seqPenalty (effectiveCb ch) i j

/-- The partner the selector picks for residue i of a chain, with the
weight and penalty of the given model data. -/
noncomputable def chainPartner (md : ModelData) (ch : Chain) (i : ℕ) :
    Option ℕ :=
  findResiduePartner md.seqWeight md.seqPenalty (effectiveCb ch)
    ch.len i

/-- Modelled from the spec: the per-residue state of the driver,
section 4.7.  A residue without both neighbours (i = 0, i = L - 1, or
any residue of a chain with L < 3) is INVALID_STATE without invoking the
network; a residue whose partner search fails is INVALID_STATE; any
other residue is the nearest-centroid index of the network embedding of
its pair features. -/
noncomputable def residueState (md : ModelData) (ch : Chain) (i : ℕ) :
    ℕ :=
  if 0 < i ∧ i + 1 < ch.len then
    match chainPartner md ch i with
    | none => Alphabet3Di.INVALID_STATE
    | some j =>
        nearestCentroid md.centroids
          (netForward md.layers
            (fun s =>
              (calcFeatures (fun z => ch.ca z.toNat) (i : ℤ)
                (j : ℤ)).getD s 0))
  else Alphabet3Di.INVALID_STATE

/-- Modelled from the spec: the state pipeline of section 4.7, one state
code per residue in input order. -/
noncomputable def structure2states (md : ModelData) (ch : Chain) :
    List ℕ :=
  (List.range ch.len).map (residueState md ch)

/-- The chain with a constant offset added to every Ca, N, C and Cb
coordinate. -/
noncomputable def translateChain (ch : Chain) (t : Vec3) : Chain where
  len := ch.len
  ca := fun i => add (ch.ca i) t
  n := fun i => add (ch.n i) t
  c := fun i => add (ch.c i) t
  cb := fun i => (ch.cb i).map (fun v => add v t)

/-- Modelled from the spec: the model asset of section 6, a header
declaring version, F, E, K, the virtual-center parameters and the
sequence-penalty weight, then the centroid table and the layers. -/
structure Asset where
  version : ℕ
  F : ℕ
  E : ℕ
  K : ℕ
  vcAlpha : ℝ
  vcBeta : ℝ
  vcD : ℝ
  seqWeight : ℝ
  centroids : ℕ → ℕ → ℝ
  layers : List Layer

/-- The virtual-center parameters the reviewed code consults when
synthesising a pseudo Cb: the process-wide constants of the Alphabet3Di
namespace, quoted in the report from structureto3di.h.  The function
receives an asset handle only to express that no field of it is read
(design note 9 of the spec records that the reference uses process-wide
constants for these values). -/
noncomputable def virtualCenterParamsUsed (_a : Asset) :
    Alphabet3Di.VCParams :=
  Alphabet3Di.VIRTUAL_CENTER

/-- A concrete synthetic asset whose header declares virtual-center
parameters alpha = 1, beta = 2, d = 3, used to exhibit that the
reviewed code does not read them. -/
noncomputable def assetProbe : Asset :=
  ⟨1, 10, 2, 20, 1, 2, 3, 0, fun _ _ => 0, []⟩

/-- A trivial model: no layers, all-zero centroids, zero sequence
penalty.  Used only to instantiate theorems at concrete inputs. -/
noncomputable def mdZero : ModelData :=
  ⟨[], fun _ _ => 0, 0, fun _ => 0⟩

/-- A concrete three-residue chain with every atom at the origin and
every Cb missing.  Used only to instantiate theorems at concrete
inputs. -/
noncomputable def chain3 : Chain :=
  ⟨3, fun _ => ⟨0, 0, 0⟩, fun _ => ⟨0, 0, 0⟩, fun _ => ⟨0, 0, 0⟩,
    fun _ => none⟩

/-- Cumulative buffer contents: element c is the concatenation of
blocks 0 through c.  This mirrors a per-thread buffer that createdb
clears once per input file and appends to once per chain
(structcreatedb.cpp lines 83 to 119). -/
def cumConcat {β : Type} : List (List β) → List (List β)
  | [] => []
  | b :: rest => b :: (cumConcat rest).map (fun s => b ++ s)

/-- One chain of a loaded structure file as createdb consumes it: the
state codes structure2states produced for it and the three coordinate
component lists of its Ca atoms, over an abstract coordinate scalar. -/
structure FileChain (β : Type) where
  states : List ℕ
  caX : List β
  caY : List β
  caZ : List β

/-- The payload createdb appends to the alphabet3di buffer for one
chain: each state mapped through the num2aa table, then one newline
(structcreatedb.cpp lines 98 to 101). -/
def chainSsBlock {β : Type} (num2aa : ℕ → Char) (fc : FileChain β) :
    List Char :=
  fc.states.map num2aa ++ ['\n']

/-- The payload createdb appends to the camol buffer for one chain: all
x components, then all y components, then all z components of its Ca
coordinates (structcreatedb.cpp lines 110 to 118). -/
def chainCaBlock {β : Type} (fc : FileChain β) : List β :=
  fc.caX ++ fc.caY ++ fc.caZ

/-- The writeData calls createdb issues to the torsion (3Di) database
for the chains of file number fkey: one write per chain, carrying the
buffer accumulated so far under the file key (structcreatedb.cpp line
102; the buffer is cleared at line 83, once per file). -/
def torsionWrites {β : Type} (num2aa : ℕ → Char) (fkey : ℕ)
    (chains : List (FileChain β)) : List (ℕ × List Char) :=
  (cumConcat (chains.map (chainSsBlock num2aa))).map (fun b => (fkey, b))

/-- The writeData calls createdb issues to the Ca coordinate database
for the chains of file number fkey (structcreatedb.cpp line 119). -/
def caWrites {β : Type} (fkey : ℕ) (chains : List (FileChain β)) :
    List (ℕ × List β) :=
  (cumConcat (chains.map chainCaBlock)).map (fun b => (fkey, b))

/-- The record a reader finds under a key once all writes are done: the
last write under that key wins, each successive write under the same
key replacing the record stored by the previous one. -/
def lastRecord {γ : Type} (writes : List (ℕ × γ)) (k : ℕ) : Option γ :=
  ((writes.filter (fun p => p.1 == k)).map (fun p => p.2)).getLast?

/-- The createdb per-file loop of structcreatedb.cpp lines 80 to 123,
over already-loaded inputs: file k is skipped and counted when its load
failed (modelled as none, line 85 to 88), and otherwise contributes its
chain writes under key k.  Returns the torsion writes, the Ca writes
and the incorrect-file count. -/
def runFiles {β : Type} (num2aa : ℕ → Char) (k : ℕ) :
    List (Option (List (FileChain β))) →
      List (ℕ × List Char) × List (ℕ × List β) × ℕ
  | [] => ([], [], 0)
  | fo :: rest =>
    let r := runFiles num2aa (k + 1) rest
    match fo with
    | none => (r.1, r.2.1, r.2.2 + 1)
    | some chains =>
        (torsionWrites num2aa k chains ++ r.1,
          caWrites k chains ++ r.2.1, r.2.2)

/-- The outcome of one createdb invocation over the given file loads:
its writes, the reported count of incorrect files, and the process exit
code, which the source returns as EXIT_SUCCESS unconditionally
(structcreatedb.cpp lines 195 to 196). -/
structure CreatedbResult (β : Type) where
  ssWrites : List (ℕ × List Char)
  caWrites : List (ℕ × List β)
  incorrectFiles : ℕ
  exitCode : ℕ

/-- The createdb command of structcreatedb.cpp over already-loaded
inputs, starting at file key 0. -/
def createdb {β : Type} (num2aa : ℕ → Char)
    (files : List (Option (List (FileChain β)))) : CreatedbResult β :=
  let r := runFiles num2aa 0 files
  ⟨r.1, r.2.1, r.2.2, 0⟩

/-- A concrete one-residue chain record over natural-number
coordinates, used only to instantiate theorems at concrete inputs. -/
def fcA : FileChain ℕ := ⟨[0], [1], [2], [3]⟩

/-- A second concrete one-residue chain record, used only to
instantiate theorems at concrete inputs. -/
def fcB : FileChain ℕ := ⟨[4], [5], [6], [7]⟩

/-- A concrete stand-in for the num2aa table, used only to instantiate
theorems at concrete inputs. -/
def num2aaProbe : ℕ → Char := fun _ => 'L'

/-- Helper: copysign of a nonnegative magnitude agrees with
multiplication by the integer sign, for a magnitude that vanishes when
the integer does. -/
theorem copysign_intCast (m : ℤ) (r : ℝ) (hr : 0 ≤ r)
    (h0 : m = 0 → r = 0) : copysign r (m : ℝ) = (m.sign : ℝ) * r := by
  rcases lt_trichotomy m 0 with hm | hm | hm
  · have hcast : ((m : ℝ) < 0) := by exact_mod_cast hm
    simp [copysign, hcast, Int.sign_eq_neg_one_of_neg hm, abs_of_nonneg hr]
  · subst hm
    simp [copysign, h0 rfl]
  · have hcast : ¬((m : ℝ) < 0) := by
      push_neg
      exact_mod_cast hm.le
    simp [copysign, hcast, Int.sign_eq_one_of_pos hm, abs_of_nonneg hr]

/-- C2: for every chain array and every residue pair (i, j), calcFeatures
emits exactly FEATURE_CNT = 10 features, and they are, in positional
order, u1.u2, u3.u4, u1.u5, u3.u5, u1.u4, u2.u3, u1.u3,
dist(ca i, ca j), sign(j-i)*min(|j-i|, 4) and sign(j-i)*log(|j-i| + 1),
with the unit vectors u1..u5 of section 4.4 of the spec, feature 8
clipped to plus-minus 4 and feature 9 the natural logarithm, both signed
by the direction of the partner. -/
theorem calcFeatures_order (ca : ℤ → Vec3) (i j : ℤ) :
    calcFeatures ca i j = specFeatures ca i j ∧
      (calcFeatures ca i j).length = Alphabet3Di.FEATURE_CNT := by
  constructor
  · have h8 : copysign (fmin |((j - i : ℤ) : ℝ)| 4) ((j - i : ℤ) : ℝ)
        = (((j - i : ℤ).sign : ℝ)) * min |((j - i : ℤ) : ℝ)| 4 := by
      refine copysign_intCast (j - i) _ (le_min (abs_nonneg _) (by norm_num)) ?_
      intro h
      simp [fmin, h]
    have h9 : copysign (Real.log (|((j - i : ℤ) : ℝ)| + 1)) ((j - i : ℤ) : ℝ)
        = (((j - i : ℤ).sign : ℝ)) * Real.log (|((j - i : ℤ) : ℝ)| + 1) := by
      refine copysign_intCast (j - i) _
        (Real.log_nonneg (by
          have := abs_nonneg ((j - i : ℤ) : ℝ)
          linarith)) ?_
      intro h
      simp [h]
    simp only [calcFeatures, specFeatures, fmin] at h8 ⊢
    rw [h8, h9]
  · rfl

/-- C3 record: the quoted norm applied to the zero vector.  The computed
Euclidean length is 0 and the function divides by it unconditionally and
returns a vector rather than signalling any error; each returned
component is 0/0 (NaN under IEEE arithmetic, 0 under the division
convention of this real-number model). -/
theorem norm_zero_divides_by_zero :
    norm2 ⟨0, 0, 0⟩ = 0 ∧ norm ⟨0, 0, 0⟩ = ⟨(0 : ℝ) / 0, 0 / 0, 0 / 0⟩ := by
  constructor
  · simp [norm2]
  · simp [norm]

/-- C8: rotate, as quoted from the source, implements the Rodrigues
formula v cos t + (axis x v) sin t + axis (axis . v)(1 - cos t), under
the stated precondition that the axis has unit length. -/
theorem rotate_eq_rodrigues (v k : Vec3) (t : ℝ) (hk : norm2 k = 1) :
    rotate v k t = rodrigues v k t := by
  unfold rotate rodrigues add scale cross dot
  simp only [Vec3.mk.injEq]

/-- C8 witness: the Rodrigues identity applied to the concrete unit axis
(1, 0, 0), the vector (2, 3, 5) and the angle 0. -/
theorem rotate_eq_rodrigues_witness :
    norm2 ⟨1, 0, 0⟩ = 1 ∧
      rotate ⟨2, 3, 5⟩ ⟨1, 0, 0⟩ 0 = rodrigues ⟨2, 3, 5⟩ ⟨1, 0, 0⟩ 0 :=
  have h : norm2 ⟨1, 0, 0⟩ = 1 := by
    simp [norm2]
  ⟨h, rotate_eq_rodrigues ⟨2, 3, 5⟩ ⟨1, 0, 0⟩ 0 h⟩

/-- Helper: the scan result is the start value or one of the scanned
candidates. -/
theorem pickFrom_mem {α : Type} [LinearOrder α] (key : ℕ → α) :
    ∀ (l : List ℕ) (m : ℕ), pickFrom key m l ∈ m :: l := by
  intro l
  induction l with
  | nil => intro m; simp [pickFrom]
  | cons k ks ih =>
    intro m
    rw [pickFrom]
    by_cases hc : key k < key m
    · rw [if_pos hc]
      rcases List.mem_cons.mp (ih k) with h1 | h1
      · rw [h1]
        exact List.mem_cons_of_mem _ (List.mem_cons_self _ _)
      · exact List.mem_cons_of_mem _ (List.mem_cons_of_mem _ h1)
    · rw [if_neg hc]
      rcases List.mem_cons.mp (ih m) with h1 | h1
      · rw [h1]
        exact List.mem_cons_self _ _
      · exact List.mem_cons_of_mem _ (List.mem_cons_of_mem _ h1)

/-- Helper: the scan result has the minimal key among the start value
and the scanned candidates. -/
theorem pickFrom_min {α : Type} [LinearOrder α] (key : ℕ → α) :
    ∀ (l : List ℕ) (m : ℕ), ∀ x ∈ m :: l,
      key (pickFrom key m l) ≤ key x := by
  intro l
  induction l with
  | nil =>
    intro m x hx
    rw [List.mem_singleton] at hx
    subst hx
    simp [pickFrom]
  | cons k ks ih =>
    intro m x hx
    rw [pickFrom]
    by_cases hc : key k < key m
    · rw [if_pos hc]
      have hk : key (pickFrom key k ks) ≤ key k :=
        ih k k (List.mem_cons_self _ _)
      rcases List.mem_cons.mp hx with rfl | hx1
      · exact le_of_lt (lt_of_le_of_lt hk hc)
      · rcases List.mem_cons.mp hx1 with rfl | hx2
        · exact hk
        · exact ih k x (List.mem_cons_of_mem _ hx2)
    · rw [if_neg hc]
      have hm : key (pickFrom key m ks) ≤ key m :=
        ih m m (List.mem_cons_self _ _)
      rcases List.mem_cons.mp hx with rfl | hx1
      · exact hm
      · rcases List.mem_cons.mp hx1 with rfl | hx2
        · exact le_trans hm (not_lt.mp hc)
        · exact ih m x (List.mem_cons_of_mem _ hx2)

/-- Helper: on a strictly increasing candidate list the scan keeps the
smallest index among those attaining the minimal key. -/
theorem pickFrom_first {α : Type} [LinearOrder α] (key : ℕ → α) :
    ∀ (l : List ℕ) (m : ℕ), (m :: l).Pairwise (· < ·) →
      ∀ x ∈ m :: l, key (pickFrom key m l) = key x →
        pickFrom key m l ≤ x := by
  intro l
  induction l with
  | nil =>
    intro m _ x hx _
    rw [List.mem_singleton] at hx
    subst hx
    simp [pickFrom]
  | cons k ks ih =>
    intro m hp x hx heq
    rw [pickFrom] at heq ⊢
    have hmk : m < k := List.rel_of_pairwise_cons hp (List.mem_cons_self _ _)
    have hmks : ∀ y ∈ ks, m < y := fun y hy =>
      List.rel_of_pairwise_cons hp (List.mem_cons_of_mem _ hy)
    have hkpair : (k :: ks).Pairwise (· < ·) := (List.pairwise_cons.mp hp).2
    have hkspair : ks.Pairwise (· < ·) := (List.pairwise_cons.mp hkpair).2
    have hmpair : (m :: ks).Pairwise (· < ·) :=
      List.pairwise_cons.mpr ⟨hmks, hkspair⟩
    by_cases hc : key k < key m
    · rw [if_pos hc] at heq ⊢
      have hk : key (pickFrom key k ks) ≤ key k :=
        pickFrom_min key ks k k (List.mem_cons_self _ _)
      rcases List.mem_cons.mp hx with rfl | hx1
      · exact absurd heq (ne_of_lt (lt_of_le_of_lt hk hc))
      · rcases List.mem_cons.mp hx1 with rfl | hx2
        · exact ih x hkpair x (List.mem_cons_self _ _) heq
        · exact ih k hkpair x (List.mem_cons_of_mem _ hx2) heq
    · rw [if_neg hc] at heq ⊢
      have hm : key (pickFrom key m ks) ≤ key m :=
        pickFrom_min key ks m m (List.mem_cons_self _ _)
      rcases List.mem_cons.mp hx with rfl | hx1
      · exact ih x hmpair x (List.mem_cons_self _ _) heq
      · rcases List.mem_cons.mp hx1 with rfl | hx2
        · have hresm : key (pickFrom key m ks) = key m := by
            refine le_antisymm hm ?_
            rw [heq]
            exact not_lt.mp hc
          have hres : pickFrom key m ks ≤ m :=
            ih m hmpair m (List.mem_cons_self _ _) hresm
          exact le_of_lt (lt_of_le_of_lt hres hmk)
        · exact ih m hmpair x (List.mem_cons_of_mem _ hx2) heq

/-- Helper: pick returns none exactly on the empty candidate list. -/
theorem pick_eq_none {α : Type} [LinearOrder α] (key : ℕ → α)
    (l : List ℕ) : pick key l = none ↔ l = [] := by
  cases l <;> simp [pick]

/-- Helper: a picked index is one of the candidates. -/
theorem pick_mem {α : Type} [LinearOrder α] (key : ℕ → α)
    {l : List ℕ} {j : ℕ} (h : pick key l = some j) : j ∈ l := by
  cases l with
  | nil => simp [pick] at h
  | cons m ks =>
    rw [pick, Option.some.injEq] at h
    exact h ▸ pickFrom_mem key ks m

/-- Helper: a picked index attains the minimal key. -/
theorem pick_min {α : Type} [LinearOrder α] (key : ℕ → α)
    {l : List ℕ} {j : ℕ} (h : pick key l = some j) :
    ∀ x ∈ l, key j ≤ key x := by
  cases l with
  | nil => simp [pick] at h
  | cons m ks =>
    rw [pick, Option.some.injEq] at h
    exact h ▸ pickFrom_min key ks m

/-- Helper: on a strictly increasing candidate list the picked index is
the smallest one attaining the minimal key. -/
theorem pick_first {α : Type} [LinearOrder α] (key : ℕ → α)
    {l : List ℕ} {j : ℕ} (hp : l.Pairwise (· < ·))
    (h : pick key l = some j) :
    ∀ x ∈ l, key j = key x → j ≤ x := by
  cases l with
  | nil => simp [pick] at h
  | cons m ks =>
    rw [pick, Option.some.injEq] at h
    exact h ▸ pickFrom_first key ks m hp

/-- Helper: membership in the candidate list of the partner selector. -/
theorem mem_partnerCandidates {L i j : ℕ} :
    j ∈ partnerCandidates L i ↔ 0 < j ∧ j + 1 < L ∧ j ≠ i := by
  simp only [partnerCandidates, List.mem_filter, List.mem_range,
    decide_eq_true_eq]
  constructor
  · rintro ⟨-, h⟩; exact h
  · intro h; exact ⟨Nat.lt_of_succ_lt h.2.1, h⟩

/-- Helper: the candidate list is strictly increasing. -/
theorem partnerCandidates_pairwise (L i : ℕ) :
    (partnerCandidates L i).Pairwise (· < ·) :=
  (List.sorted_lt_range L).sublist (List.filter_sublist _)

/-- Helper: the quantiser always lands inside the centroid table. -/
theorem nearestCentroid_lt (cents : ℕ → ℕ → ℝ) (e : ℕ → ℝ) :
    nearestCentroid cents e < Alphabet3Di.CENTROID_CNT := by
  unfold nearestCentroid
  cases h : pick (fun k => sqDist2 e (cents k))
      (List.range Alphabet3Di.CENTROID_CNT) with
  | none =>
    rw [pick_eq_none] at h
    have hl : (List.range Alphabet3Di.CENTROID_CNT).length = 0 := by
      rw [h]
      rfl
    rw [List.length_range] at hl
    exact absurd hl (by decide)
  | some k =>
    have hmem := pick_mem _ h
    rw [List.mem_range] at hmem
    simpa using hmem

/-- C5: the partner selector.  If it returns j for residue i, then j is
a candidate (j distinct from i with both neighbours in range) and j
minimises the composite cost dist(EffectiveCb i, EffectiveCb j) +
w * f(|j - i|) over all candidates, ties broken by the smaller |j - i|
and then by the smaller j; if it returns none, residue i is marked
INVALID, and none is returned exactly when no candidate exists. -/
theorem partner_selector_spec (md : ModelData) (ch : Chain) (i : ℕ) :
    (∀ j, chainPartner md ch i = some j →
      (0 < j ∧ j + 1 < ch.len ∧ j ≠ i) ∧
        ∀ k, 0 < k → k + 1 < ch.len → k ≠ i →
          chainCost md ch i j < chainCost md ch i k ∨
            (chainCost md ch i j = chainCost md ch i k ∧
              (Nat.dist j i < Nat.dist k i ∨
                (Nat.dist j i = Nat.dist k i ∧ j ≤ k)))) ∧
      (chainPartner md ch i = none →
        residueState md ch i = Alphabet3Di.INVALID_STATE) ∧
      (chainPartner md ch i = none ↔
        ¬∃ j, 0 < j ∧ j + 1 < ch.len ∧ j ≠ i) := by
  refine ⟨?_, ?_, ?_⟩
  · intro j hj
    rw [chainPartner, findResiduePartner] at hj
    constructor
    · exact mem_partnerCandidates.mp (pick_mem _ hj)
    · intro k hk0 hk1 hkne
      have hkmem : k ∈ partnerCandidates ch.len i :=
        mem_partnerCandidates.mpr ⟨hk0, hk1, hkne⟩
      have hle := pick_min _ hj k hkmem
      rw [Prod.Lex.le_iff] at hle
      rcases hle with hlt | ⟨hceq, hdle⟩
      · exact Or.inl hlt
      · by_cases hd : Nat.dist j i < Nat.dist k i
        · exact Or.inr ⟨hceq, Or.inl hd⟩
        · have hdeq : Nat.dist j i = Nat.dist k i :=
            le_antisymm hdle (not_lt.mp hd)
          have hkeq : toLex (partnerCost md.seqWeight md.seqPenalty
                (effectiveCb ch) i j, Nat.dist j i)
              = toLex (partnerCost md.seqWeight md.seqPenalty
                (effectiveCb ch) i k, Nat.dist k i) := by
            apply congrArg toLex
            exact Prod.ext hceq hdeq
          have hjk := pick_first _ (partnerCandidates_pairwise ch.len i)
            hj k hkmem hkeq
          exact Or.inr ⟨hceq, Or.inr ⟨hdeq, hjk⟩⟩
  · intro h
    unfold residueState
    rw [h]
    split <;> rfl
  · rw [chainPartner, findResiduePartner, pick_eq_none]
    constructor
    · rintro he ⟨j, hj⟩
      have hmem := mem_partnerCandidates.mpr hj
      rw [he] at hmem
      exact absurd hmem (List.not_mem_nil j)
    · intro hne
      refine List.eq_nil_iff_forall_not_mem.mpr fun j hj => ?_
      exact hne ⟨j, mem_partnerCandidates.mp hj⟩

/-- C1 counterexample: in the Alphabet3Di namespace, the reserved
INVALID_STATE is 2, not K = CENTROID_CNT = 20, and 2 is itself a
centroid index (the source comments it as the coil state), so an
invalid residue is not distinguishable from valid state 2. -/
theorem invalidState_is_a_centroid_index :
    Alphabet3Di.INVALID_STATE = 2 ∧
      Alphabet3Di.CENTROID_CNT = 20 ∧
      Alphabet3Di.INVALID_STATE ≠ Alphabet3Di.CENTROID_CNT ∧
      Alphabet3Di.INVALID_STATE < Alphabet3Di.CENTROID_CNT := by
  refine ⟨rfl, rfl, by decide, by decide⟩

/-- C1 amended: every emitted state code lies in the set
{0..K-1} union {INVALID_STATE}.  In the Alphabet3diSeqDist variant,
INVALID_STATE is CENTROID_CNT, as the claim says; in Alphabet3Di,
however, INVALID_STATE is 2, a centroid index, so every emitted state
of the main pipeline in fact lies in {0..K-1}. -/
theorem states_in_alphabet (md : ModelData) (ch : Chain) (i : ℕ) :
    (residueState md ch i < Alphabet3Di.CENTROID_CNT ∨
        residueState md ch i = Alphabet3Di.INVALID_STATE) ∧
      residueState md ch i < Alphabet3Di.CENTROID_CNT ∧
      Alphabet3diSeqDist.INVALID_STATE = Alphabet3diSeqDist.CENTROID_CNT := by
  have h : residueState md ch i < Alphabet3Di.CENTROID_CNT := by
    unfold residueState
    split
    · cases chainPartner md ch i with
      | none =>
        exact (by decide :
          Alphabet3Di.INVALID_STATE < Alphabet3Di.CENTROID_CNT)
      | some j => exact nearestCentroid_lt _ _
    · exact (by decide :
        Alphabet3Di.INVALID_STATE < Alphabet3Di.CENTROID_CNT)
  exact ⟨Or.inl h, h, rfl⟩

/-- Helper: reading the state list at a position below the length gives
the per-residue state. -/
theorem structure2states_getD (md : ModelData) (ch : Chain) (i : ℕ)
    (h : i < ch.len) (d : ℕ) :
    (structure2states md ch).getD i d = residueState md ch i := by
  unfold structure2states
  have hlen : i < ((List.range ch.len).map (residueState md ch)).length := by
    rw [List.length_map, List.length_range]
    exact h
  rw [List.getD_eq_getElem _ _ hlen, List.getElem_map, List.getElem_range]

/-- C6: the pipeline emits one state per residue for every chain (a
chain with L < 3 is not an error: all its residues come out INVALID),
and any residue that is an endpoint or belongs to a chain shorter than
three residues is emitted as INVALID_STATE without consulting the
network. -/
theorem endpoints_and_short_chains_invalid (md : ModelData) (ch : Chain) :
    (structure2states md ch).length = ch.len ∧
      ∀ i, i < ch.len → (i = 0 ∨ i = ch.len - 1 ∨ ch.len < 3) →
        (structure2states md ch).getD i 0 = Alphabet3Di.INVALID_STATE := by
  constructor
  · rw [structure2states, List.length_map, List.length_range]
  · intro i hi hcase
    rw [structure2states_getD md ch i hi]
    unfold residueState
    rw [if_neg]
    rintro ⟨h0, h1⟩
    rcases hcase with rfl | rfl | h <;> omega

/-- C6 witness: the first residue of the concrete three-residue chain
comes out INVALID under the trivial model. -/
theorem endpoints_invalid_witness :
    (structure2states mdZero chain3).getD 0 0
      = Alphabet3Di.INVALID_STATE :=
  (endpoints_and_short_chains_invalid mdZero chain3).2 0 (by decide)
    (Or.inl rfl)

/-- Helper: differences of commonly translated vectors are unchanged. -/
theorem sub_add_cancel_vec (a b t : Vec3) :
    sub (add a t) (add b t) = sub a b := by
  simp only [sub, add, Vec3.mk.injEq]
  exact ⟨by ring, by ring, by ring⟩

/-- Helper: the Euclidean distance is translation invariant. -/
theorem calcDistanceBetween_translate (a b t : Vec3) :
    calcDistanceBetween (add a t) (add b t) = calcDistanceBetween a b := by
  simp only [calcDistanceBetween, add]
  congr 1
  ring

/-- Helper: the radian-core virtual center is translation covariant. -/
theorem calcVirtualCenterRad_translate (ca n c t : Vec3)
    (aR bR d : ℝ) :
    calcVirtualCenterRad (add ca t) (add n t) (add c t) aR bR d
      = add (calcVirtualCenterRad ca n c aR bR d) t := by
  unfold calcVirtualCenterRad
  rw [sub_add_cancel_vec, sub_add_cancel_vec]
  simp only [add, Vec3.mk.injEq]
  exact ⟨by ring, by ring, by ring⟩

/-- Helper: the degree-interface virtual center is translation
covariant. -/
theorem calcVirtualCenter_translate (ca n c t : Vec3)
    (alpha beta d : ℝ) :
    calcVirtualCenter (add ca t) (add n t) (add c t) alpha beta d
      = add (calcVirtualCenter ca n c alpha beta d) t := by
  unfold calcVirtualCenter
  exact calcVirtualCenterRad_translate ca n c t _ _ d

/-- Helper: the EffectiveCb array of a translated chain is the
translated EffectiveCb array. -/
theorem effectiveCb_translate (ch : Chain) (t : Vec3) (i : ℕ) :
    effectiveCb (translateChain ch t) i = add (effectiveCb ch i) t := by
  unfold effectiveCb translateChain
  cases h : ch.cb i with
  | none => simp [h, calcVirtualCenter_translate]
  | some v => simp [h]

/-- Helper: function form of the EffectiveCb translation fact. -/
theorem effectiveCb_translate_fun (ch : Chain) (t : Vec3) :
    effectiveCb (translateChain ch t)
      = fun x => add (effectiveCb ch x) t :=
  funext (effectiveCb_translate ch t)

/-- Helper: the composite partner cost is translation invariant. -/
theorem partnerCost_translate (w : ℝ) (f : ℕ → ℝ) (cb : ℕ → Vec3)
    (t : Vec3) (i j : ℕ) :
    partnerCost w f (fun x => add (cb x) t) i j
      = partnerCost w f cb i j := by
  unfold partnerCost
  rw [calcDistanceBetween_translate]

/-- Helper: the partner selector is translation invariant. -/
theorem findResiduePartner_translate (w : ℝ) (f : ℕ → ℝ)
    (cb : ℕ → Vec3) (t : Vec3) (L i : ℕ) :
    findResiduePartner w f (fun x => add (cb x) t) L i
      = findResiduePartner w f cb L i := by
  unfold findResiduePartner
  congr 1
  funext j
  rw [partnerCost_translate]

/-- Helper: the ten pair features are translation invariant. -/
theorem calcFeatures_translate (ca : ℤ → Vec3) (t : Vec3) (i j : ℤ) :
    calcFeatures (fun z => add (ca z) t) i j = calcFeatures ca i j := by
  simp only [calcFeatures, sub_add_cancel_vec, calcDistanceBetween_translate]

/-- Helper: each residue state is translation invariant. -/
theorem residueState_translate (md : ModelData) (ch : Chain) (t : Vec3)
    (i : ℕ) :
    residueState md (translateChain ch t) i = residueState md ch i := by
  have hpart : chainPartner md (translateChain ch t) i
      = chainPartner md ch i := by
    show findResiduePartner md.seqWeight md.seqPenalty
        (effectiveCb (translateChain ch t)) (translateChain ch t).len i
      = findResiduePartner md.seqWeight md.seqPenalty (effectiveCb ch)
        ch.len i
    rw [effectiveCb_translate_fun]
    exact findResiduePartner_translate _ _ _ _ _ _
  unfold residueState
  rw [hpart]
  simp only [translateChain]
  simp only [calcFeatures_translate]

/-- C9: adding one constant offset to every Ca, N, C and Cb coordinate
of a chain leaves the emitted state string unchanged. -/
theorem translation_invariance (md : ModelData) (ch : Chain) (t : Vec3) :
    structure2states md (translateChain ch t) = structure2states md ch := by
  unfold structure2states
  have hf : residueState md (translateChain ch t) = residueState md ch :=
    funext (residueState_translate md ch t)
  rw [hf]
  rfl

/-- C4 counterexample: a synthetic asset declaring virtual-center
parameters (1, 2, 3) in its header; the parameters the code consults are
the namespace constants (270, 0, 2), not the fields of the asset. -/
theorem asset_vc_params_ignored :
    virtualCenterParamsUsed assetProbe = ⟨270, 0, 2⟩ ∧
      assetProbe.vcAlpha = 1 ∧ assetProbe.vcBeta = 2 ∧
      assetProbe.vcD = 3 ∧
      virtualCenterParamsUsed assetProbe
        ≠ ⟨assetProbe.vcAlpha, assetProbe.vcBeta, assetProbe.vcD⟩ := by
  refine ⟨rfl, rfl, rfl, rfl, ?_⟩
  intro h
  have hx : (270 : ℝ) = 1 := congrArg Alphabet3Di.VCParams.alpha h
  norm_num at hx

/-- C4 amended: the synthesiser takes alpha and beta in degrees and
converts them to radians internally, the defaults are the constants
alpha = 270, beta = 0, d = 2 of the Alphabet3Di namespace together with
the bond length DISTANCE_ALPHA_BETA = 1.5336, and these values are
process-wide constants in code, read regardless of any asset handle. -/
theorem virtual_center_code_constants (a : Asset) (ca n c : Vec3)
    (al be d : ℝ) :
    Alphabet3Di.VIRTUAL_CENTER = ⟨270, 0, 2⟩ ∧
      Alphabet3Di.DISTANCE_ALPHA_BETA = 1.5336 ∧
      virtualCenterParamsUsed a = Alphabet3Di.VIRTUAL_CENTER ∧
      calcVirtualCenter ca n c al be d
        = calcVirtualCenterRad ca n c (al * (Alphabet3Di.PI / 180))
            (be * (Alphabet3Di.PI / 180)) d :=
  ⟨rfl, rfl, rfl, rfl⟩

/-- Helper: the cumulative concatenation has one entry per block. -/
theorem cumConcat_length {β : Type} (bs : List (List β)) :
    (cumConcat bs).length = bs.length := by
  induction bs with
  | nil => rfl
  | cons b rest ih => simp [cumConcat, ih]

/-- Helper: entry c of the cumulative concatenation is the
concatenation of blocks 0 through c. -/
theorem cumConcat_getD {β : Type} (bs : List (List β)) (c : ℕ)
    (h : c < bs.length) (d : List β) :
    (cumConcat bs).getD c d = (bs.take (c + 1)).flatten := by
  induction bs generalizing c with
  | nil => exact absurd h (by simp)
  | cons b rest ih =>
    cases c with
    | zero => simp [cumConcat]
    | succ c' =>
      have hc' : c' < rest.length := by
        rw [List.length_cons] at h
        omega
      have hlt : c' < (cumConcat rest).length := by
        rw [cumConcat_length]
        exact hc'
      rw [cumConcat, List.getD_cons_succ,
        List.getD_eq_getElem _ _ (by rw [List.length_map]; exact hlt),
        List.getElem_map, ← List.getD_eq_getElem _ d hlt, ih c' hc',
        List.take_succ_cons, List.flatten_cons]

/-- Helper: the last entry of the cumulative concatenation is the
concatenation of all blocks. -/
theorem cumConcat_getLast {β : Type} (bs : List (List β))
    (h : bs ≠ []) : (cumConcat bs).getLast? = some bs.flatten := by
  have hlen : 0 < bs.length := List.length_pos.mpr h
  have hcc : (cumConcat bs).length = bs.length := cumConcat_length bs
  have hlt : (cumConcat bs).length - 1 < (cumConcat bs).length := by
    omega
  rw [List.getLast?_eq_getElem?, List.getElem?_eq_getElem hlt,
    ← List.getD_eq_getElem _ [] hlt]
  have hix : (cumConcat bs).length - 1 = bs.length - 1 := by omega
  rw [hix, cumConcat_getD bs (bs.length - 1) (by omega) [],
    show bs.length - 1 + 1 = bs.length from by omega, List.take_length]

/-- Helper: entry c of a keyed write sequence. -/
theorem keyedWrites_getD {β : Type} (fkey : ℕ) (bs : List (List β))
    (c : ℕ) (h : c < bs.length) :
    ((cumConcat bs).map (fun b => (fkey, b))).getD c (fkey, [])
      = (fkey, (bs.take (c + 1)).flatten) := by
  have hlt : c < (cumConcat bs).length := by
    rw [cumConcat_length]
    exact h
  rw [List.getD_eq_getElem _ _ (by rw [List.length_map]; exact hlt),
    List.getElem_map]
  have hd := cumConcat_getD bs c h []
  rw [List.getD_eq_getElem _ _ hlt] at hd
  rw [hd]

/-- Helper: every write of a keyed write sequence carries the key. -/
theorem keyedWrites_key {β : Type} (fkey : ℕ) (bs : List (List β)) :
    ∀ p ∈ (cumConcat bs).map (fun b => (fkey, b)), p.1 = fkey := by
  intro p hp
  rcases List.mem_map.mp hp with ⟨b, -, rfl⟩
  rfl

/-- Helper: the surviving record of a keyed write sequence is the full
concatenation. -/
theorem keyedWrites_last {β : Type} (fkey : ℕ) (bs : List (List β))
    (h : bs ≠ []) :
    lastRecord ((cumConcat bs).map (fun b => (fkey, b))) fkey
      = some bs.flatten := by
  unfold lastRecord
  have hfil : ((cumConcat bs).map (fun b => (fkey, b))).filter
      (fun p => p.1 == fkey) = (cumConcat bs).map (fun b => (fkey, b)) := by
    refine List.filter_eq_self.mpr fun p hp => ?_
    rcases List.mem_map.mp hp with ⟨b, -, rfl⟩
    simp
  rw [hfil, List.map_map]
  have hcomp : ((fun p : ℕ × List β => p.2) ∘ fun b => (fkey, b))
      = id := rfl
  rw [hcomp, List.map_id]
  exact cumConcat_getLast bs h

/-- C7: in createdb, the per-thread buffers are cleared once per file
and appended to once per chain, so the 3Di record and the Ca record
written for chain c of a file hold the concatenated payloads of chains
0 through c (each chain contributing its states, mapped through num2aa,
followed by a newline, respectively its x, y and z component blocks);
every one of these writes happens under the same file key, and the
record surviving under that key is the concatenation over all chains of
the file. -/
theorem createdb_concatenates_chains {β : Type} (num2aa : ℕ → Char)
    (fkey : ℕ) (chains : List (FileChain β)) (c : ℕ)
    (hc : c < chains.length) :
    (torsionWrites num2aa fkey chains).getD c (fkey, [])
        = (fkey, ((chains.take (c + 1)).map (chainSsBlock num2aa)).flatten) ∧
      (caWrites fkey chains).getD c (fkey, [])
        = (fkey, ((chains.take (c + 1)).map chainCaBlock).flatten) ∧
      (∀ p ∈ torsionWrites num2aa fkey chains, p.1 = fkey) ∧
      (∀ p ∈ caWrites fkey chains, p.1 = fkey) ∧
      lastRecord (torsionWrites num2aa fkey chains) fkey
        = some ((chains.map (chainSsBlock num2aa)).flatten) ∧
      lastRecord (caWrites fkey chains) fkey
        = some ((chains.map chainCaBlock).flatten) := by
  have hne : chains ≠ [] := by
    intro he
    rw [he] at hc
    exact absurd hc (by simp)
  have hness : chains.map (chainSsBlock num2aa) ≠ [] := by
    simp [hne]
  have hneca : chains.map chainCaBlock ≠ [] := by
    simp [hne]
  refine ⟨?_, ?_, keyedWrites_key _ _, keyedWrites_key _ _,
    keyedWrites_last _ _ hness, keyedWrites_last _ _ hneca⟩
  · rw [torsionWrites,
      keyedWrites_getD fkey _ c (by rw [List.length_map]; exact hc),
      List.map_take]
  · rw [caWrites,
      keyedWrites_getD fkey _ c (by rw [List.length_map]; exact hc),
      List.map_take]

/-- C7 witness: the second torsion write of a two-chain file carries
both chain payloads under the file key. -/
theorem createdb_concatenates_chains_witness :
    (torsionWrites num2aaProbe 7 [fcA, fcB]).getD 1 (7, [])
      = (7, (([fcA, fcB].take 2).map (chainSsBlock num2aaProbe)).flatten) :=
  (createdb_concatenates_chains num2aaProbe 7 [fcA, fcB] 1 (by decide)).1

/-- Helper: the number of skipped files reported by the file loop. -/
theorem runFiles_count {β : Type} (num2aa : ℕ → Char) (k : ℕ)
    (files : List (Option (List (FileChain β)))) :
    (runFiles num2aa k files).2.2 = files.countP (fun o => o.isNone) := by
  induction files generalizing k with
  | nil => rfl
  | cons fo rest ih =>
    cases fo with
    | none => simp [runFiles, List.countP_cons, ih]
    | some chains => simp [runFiles, List.countP_cons, ih]

/-- Helper: the file loop starting at key k only writes under keys at
least k. -/
theorem runFiles_key_lb {β : Type} (num2aa : ℕ → Char) :
    ∀ (files : List (Option (List (FileChain β)))) (k : ℕ),
      (∀ p ∈ (runFiles num2aa k files).1, k ≤ p.1) ∧
        ∀ p ∈ (runFiles num2aa k files).2.1, k ≤ p.1 := by
  intro files
  induction files with
  | nil => intro k; simp [runFiles]
  | cons fo rest ih =>
    intro k
    cases fo with
    | none =>
      constructor
      · intro p hp
        exact le_trans (Nat.le_succ k) ((ih (k + 1)).1 p hp)
      · intro p hp
        exact le_trans (Nat.le_succ k) ((ih (k + 1)).2 p hp)
    | some chains =>
      constructor
      · intro p hp
        rcases List.mem_append.mp hp with h1 | h1
        · exact le_of_eq (keyedWrites_key k _ p h1).symm
        · exact le_trans (Nat.le_succ k) ((ih (k + 1)).1 p h1)
      · intro p hp
        rcases List.mem_append.mp hp with h1 | h1
        · exact le_of_eq (keyedWrites_key k _ p h1).symm
        · exact le_trans (Nat.le_succ k) ((ih (k + 1)).2 p h1)

/-- Helper: a file whose load failed contributes no write under its
key. -/
theorem runFiles_none_no_write {β : Type} (num2aa : ℕ → Char) :
    ∀ (files : List (Option (List (FileChain β)))) (k j : ℕ),
      files.getD j (some []) = none →
        (∀ p ∈ (runFiles num2aa k files).1, p.1 ≠ k + j) ∧
          ∀ p ∈ (runFiles num2aa k files).2.1, p.1 ≠ k + j := by
  intro files
  induction files with
  | nil =>
    intro k j h
    exact absurd h (by simp)
  | cons fo rest ih =>
    intro k j h
    cases j with
    | zero =>
      rw [List.getD_cons_zero] at h
      subst h
      constructor
      · intro p hp
        have hlb := (runFiles_key_lb num2aa rest (k + 1)).1 p hp
        omega
      · intro p hp
        have hlb := (runFiles_key_lb num2aa rest (k + 1)).2 p hp
        omega
    | succ j' =>
      rw [List.getD_cons_succ] at h
      have ihr := ih (k + 1) j' h
      cases fo with
      | none =>
        constructor
        · intro p hp
          have hne := ihr.1 p hp
          omega
        · intro p hp
          have hne := ihr.2 p hp
          omega
      | some chains =>
        constructor
        · intro p hp
          rcases List.mem_append.mp hp with h1 | h1
          · have hkey := keyedWrites_key k _ p h1
            omega
          · have hne := ihr.1 p h1
            omega
        · intro p hp
          rcases List.mem_append.mp hp with h1 | h1
          · have hkey := keyedWrites_key k _ p h1
            omega
          · have hne := ihr.2 p h1
            omega

/-- C10: every input file whose load fails is skipped and counted: the
reported incorrect-file count is the number of failed loads, no 3Di or
Ca record is written under the key of a failed file, and the command
exits with code 0 (EXIT_SUCCESS) no matter how many files failed. -/
theorem createdb_skips_and_succeeds {β : Type} (num2aa : ℕ → Char)
    (files : List (Option (List (FileChain β)))) :
    (createdb num2aa files).exitCode = 0 ∧
      (createdb num2aa files).incorrectFiles
        = files.countP (fun o => o.isNone) ∧
      ∀ j, files.getD j (some []) = none →
        (∀ p ∈ (createdb num2aa files).ssWrites, p.1 ≠ j) ∧
          ∀ p ∈ (createdb num2aa files).caWrites, p.1 ≠ j := by
  refine ⟨rfl, runFiles_count num2aa 0 files, ?_⟩
  intro j h
  constructor
  · intro p hp
    have hne := (runFiles_none_no_write num2aa files 0 j h).1 p hp
    omega
  · intro p hp
    have hne := (runFiles_none_no_write num2aa files 0 j h).2 p hp
    omega

end Foldseek
